import Mathlib

/-!
Verification of the Appian CI/CD flow-B helper scripts
(`prepare_icf_template.py`, `create_icf_issue.py`).

The Python sources are shallowly embedded: pure string manipulation is
translated to functions over `String`/`List Char`, the filesystem walked by
`collect_candidates` becomes an explicit finite map from paths to entries
threaded through the traversal, and code that can raise returns `Except`.
-/

namespace ICF

/-! ## String primitives

Mirrors of the Python string operations used by the scripts:
`str.strip`, `str.lstrip("#")`, `str.startswith`, substring membership
(`"----" in line`), `str.split("=", 1)`, `str.splitlines`.
Strings are manipulated through their character lists. -/

/-- Whitespace recognized by Python `str.strip` on ASCII input. -/
def pyIsSpace (c : Char) : Bool :=
  c = ' ' || c = '\t' || c = '\n' || c = '\r' || c = '\x0b' || c = '\x0c'

/-- `str.strip()`: drop leading and trailing whitespace. -/
def stripChars (l : List Char) : List Char :=
  ((l.dropWhile pyIsSpace).reverse.dropWhile pyIsSpace).reverse

/-- `str.strip()` on a `String`. -/
def pyStrip (s : String) : String := String.mk (stripChars s.data)

/-- `str.lstrip("#")`: drop every leading `'#'`. -/
def dropHashes (l : List Char) : List Char := l.dropWhile (fun c => c = '#')

/-- `s.startswith("#")`. -/
def startsWithHash : List Char → Bool
  | '#' :: _ => true
  | _ => false

/-- `s.startswith("##")`. -/
def startsWithHH : List Char → Bool
  | '#' :: '#' :: _ => true
  | _ => false

/-- Python substring membership `pat in l`. -/
def containsSeq (pat l : List Char) : Bool :=
  l.tails.any (fun t => pat.isPrefixOf t)

/-- `s.split("=", 1)` for a string containing `'='`: the part before the
first `'='` and the part after it. -/
def splitFirstEq : List Char → List Char × List Char
  | [] => ([], [])
  | c :: cs =>
    if c = '=' then ([], cs)
    else
      let p := splitFirstEq cs
      (c :: p.1, p.2)

/-- Python `str.splitlines` (handling `\n`, `\r` and `\r\n`; no trailing
empty line for a trailing terminator). Accumulator holds the current line
reversed. -/
def splitlinesAux : List Char → List Char → List String
  | [], acc => if acc.isEmpty then [] else [String.mk acc.reverse]
  | '\n' :: rest, acc => String.mk acc.reverse :: splitlinesAux rest []
  | '\r' :: '\n' :: rest, acc => String.mk acc.reverse :: splitlinesAux rest []
  | '\r' :: rest, acc => String.mk acc.reverse :: splitlinesAux rest []
  | c :: rest, acc => splitlinesAux rest (c :: acc)

/-- `content.splitlines()`. -/
def pySplitlines (s : String) : List String := splitlinesAux s.data []

/-! ## Template Parser

Embeds `build_overrides_json` from `create_icf_issue.py` (lines 56-82) and
the identical inlined loop in `prepare_icf_template.py` `main`
(lines 155-171). -/

/-- `line.strip().startswith("##") and "----" in line`: the section-marker
test (note the raw, unstripped line is searched for the separator run). -/
def isMarkerLine (line : String) : Bool :=
  startsWithHH (stripChars line.data) && containsSeq "----".data line.data

/-- The body offset: index just past the first section-marker line, `0` when
no marker exists (`start_idx` in both scripts). -/
def bodyStartIdx (lines : List String) : Nat :=
  match lines.findIdx? isMarkerLine with
  | some i => i + 1
  | none => 0

/-- Second half of one loop iteration, applied to the (possibly
hash-stripped) line: skip a dangling hash, an emptied line or a line with
no `=`, else split on the first `=` and trim both sides. -/
def parseBody (s2 : List Char) : Option (String × String) :=
  if s2.isEmpty || startsWithHash s2 || !(s2.contains '=') then none
  else
    let p := splitFirstEq s2
    some (String.mk (stripChars p.1), String.mk (stripChars p.2))

/-- One iteration of the parsing loop: `none` when the line is skipped
(blank, `##` comment/section, dangling hash, or no `=`), otherwise the
trimmed key/value pair split on the first `=`. -/
def parseKV (raw : String) : Option (String × String) :=
  let stripped := stripChars raw.data
  if stripped.isEmpty || startsWithHH stripped then none
  else parseBody (if startsWithHash stripped then stripChars (dropHashes stripped) else stripped)

/-- `overrides[key] = value`: Python dict insertion — a fresh key is
appended, an existing key keeps its position and takes the new value. -/
def insertKV (m : List (String × String)) (k v : String) : List (String × String) :=
  if m.any (fun p => p.1 == k) then
    m.map (fun p => if p.1 == k then (k, v) else p)
  else m ++ [(k, v)]

/-- The OverrideMap extracted from the document lines: parse every line at
or after the body offset, last occurrence of a key wins. -/
def parseOverrides (lines : List String) : List (String × String) :=
  (lines.drop (bodyStartIdx lines)).foldl
    (fun m raw =>
      match parseKV raw with
      | none => m
      | some kv => insertKV m kv.1 kv.2) []

/-- String escaping done by `json.dumps` for the characters that occur in
the scripts' data (quote, backslash, and ASCII control whitespace). -/
def jsonEscape (s : String) : String :=
  String.mk (s.data.foldr (fun c acc =>
    if c = '"' then '\\' :: '"' :: acc
    else if c = '\\' then '\\' :: '\\' :: acc
    else if c = '\n' then '\\' :: 'n' :: acc
    else if c = '\r' then '\\' :: 'r' :: acc
    else if c = '\t' then '\\' :: 't' :: acc
    else c :: acc) [])

/-- `json.dumps(overrides, indent=2, ensure_ascii=False)` on a string map:
`\x7b\x7d` for the empty map, otherwise one indented `"k": "v"` line per
entry. -/
def jsonDumps (m : List (String × String)) : String :=
  if m.isEmpty then "\x7b\x7d"
  else
    "\x7b\n"
      ++ String.intercalate ",\n"
          (m.map (fun p => "  \"" ++ jsonEscape p.1 ++ "\": \"" ++ jsonEscape p.2 ++ "\""))
      ++ "\n\x7d"

/-! ## Candidate Selector

Embeds `prefer_key` and the filter/sort stage of `prepare_icf_template.py`
`main` (lines 115-128). Paths are lists of components. -/

/-- A filesystem path as its list of components. -/
abbrev FPath := List String

/-- `path.name`: the final component. -/
def pyName (p : FPath) : String := (p.getLast?).getD ""

/-- Index of the last `'.'` in a character list. -/
def lastDotIdx (l : List Char) : Option Nat :=
  match l.reverse.findIdx? (fun c => c = '.') with
  | none => none
  | some j => some (l.length - 1 - j)

/-- `pathlib`'s `suffix` of a file name: the segment from the last dot when
that dot is neither the first nor the last character, else empty. -/
def nameSuffix (name : String) : String :=
  match lastDotIdx name.data with
  | none => ""
  | some i =>
    if 0 < i ∧ i < name.data.length - 1 then String.mk (name.data.drop i) else ""

/-- `path.with_suffix("")` applied to a name that has a suffix: the name up
to (excluding) the last dot. -/
def stripSuffixName (name : String) : String :=
  match lastDotIdx name.data with
  | none => name
  | some i =>
    if 0 < i ∧ i < name.data.length - 1 then String.mk (name.data.take i) else name

/-- `str.lower()` (character-wise; the suffixes involved are ASCII). -/
def pyToLower (s : String) : String := String.mk (s.data.map Char.toLower)

/-- `prefer_key(path)`: `(priority, len(path.name), path.name)` with
priority 0 for `.properties`, 1 for `.txt`/`.cfg`, 2 otherwise. -/
def prefer_key (p : FPath) : Nat × Nat × String :=
  let suffix := pyToLower (nameSuffix (pyName p))
  let priority : Nat :=
    if suffix = ".properties" then 0
    else if suffix = ".txt" ∨ suffix = ".cfg" then 1
    else 2
  (priority, (pyName p).length, pyName p)

/-- Python string comparison: lexicographic on code points. -/
def charListLE : List Char → List Char → Bool
  | [], _ => true
  | _ :: _, [] => false
  | a :: as, b :: bs =>
    if a.toNat < b.toNat then true
    else if b.toNat < a.toNat then false
    else charListLE as bs

/-- Lexicographic order on the composite sort key. -/
def keyLE (a b : Nat × Nat × String) : Prop :=
  a.1 < b.1 ∨ (a.1 = b.1 ∧ (a.2.1 < b.2.1 ∨ (a.2.1 = b.2.1 ∧ charListLE a.2.2.data b.2.2.data = true)))

instance : DecidableRel keyLE := fun a b => by unfold keyLE; infer_instance

/-- The preorder `sorted(candidates, key=prefer_key)` sorts by. -/
def preferLE (p q : FPath) : Prop := keyLE (prefer_key p) (prefer_key q)

instance : DecidableRel preferLE := fun p q => by unfold preferLE; infer_instance

/-- `sorted(candidates, key=prefer_key)[0]`: Python's `sorted` is a stable
sort, and a stable sort is determined by the preorder and the input order,
so stable insertion sort computes the same list. -/
def chosenFile (candidates : List FPath) : Option FPath :=
  (List.insertionSort preferLE candidates).head?

/-- `allowed_suffixes` from `prepare_icf_template.py`. -/
def allowedSuffixes : List String :=
  [".properties", ".cfg", ".conf", ".ini", ".env", ".txt"]

/-- The two filtering stages before selection (`is_text_file` is passed as
an oracle for the UTF-8 decode check; walker candidates are plain files).
The `if prioritized: ... else candidates = []` branch collapses to the
prioritized list itself. -/
def filterCandidates (isText : FPath → Bool) (candidates : List FPath) : List FPath :=
  (candidates.filter isText).filter
    (fun p => allowedSuffixes.contains (pyToLower (nameSuffix (pyName p))))

/-! ## Archive-Aware Tree Walker

Embeds `collect_candidates` from `prepare_icf_template.py` (lines 45-85).
The filesystem is an explicit finite map from paths to entries, threaded
through the traversal; `zipfile.is_zipfile` success is the `zip` tag, and a
container whose payload cannot be extracted (`BadZipFile` from
`ZipFile`/`extractall`) carries `none` as its entry list. Zip payloads in
this model hold plain files and directories. -/

/-- What `zipfile` sees in a file: not a container, or a container whose
extraction yields the listed relative entries (`none` when extraction
raises). Each payload entry is a relative path plus an is-directory flag. -/
inductive ZipInfo where
  | notZip : ZipInfo
  | zip (entries : Option (List (FPath × Bool))) : ZipInfo
deriving DecidableEq

/-- A filesystem entry. -/
inductive FSEntry where
  | dir : FSEntry
  | file (z : ZipInfo) : FSEntry
deriving DecidableEq

/-- The filesystem: a finite map from absolute paths to entries. -/
abbrev FS := List (FPath × FSEntry)

def lookupFS (fs : FS) (p : FPath) : Option FSEntry :=
  match fs.find? (fun q => q.1 == p) with
  | some q => some q.2
  | none => none

/-- `path.exists()`. -/
def existsFS (fs : FS) (p : FPath) : Bool := (lookupFS fs p).isSome

/-- Create or overwrite an entry (existing keys keep their position). -/
def insertFS (fs : FS) (p : FPath) (e : FSEntry) : FS :=
  if fs.any (fun q => q.1 == p) then fs.map (fun q => if q.1 == p then (p, e) else q)
  else fs ++ [(p, e)]

/-- `current.iterdir()`: the direct children, in map order. -/
def childrenOf (fs : FS) (p : FPath) : List (FPath × FSEntry) :=
  fs.filter (fun q => p.isPrefixOf q.1 && q.1.length == p.length + 1)

/-- The expansion target of a container:
`entry.with_suffix("") if entry.suffix else entry.parent / (entry.name + "_extracted")`. -/
def targetOf (p : FPath) : FPath :=
  let name := pyName p
  let parent := p.dropLast
  if nameSuffix name = "" then parent ++ [name ++ "_extracted"]
  else parent ++ [stripSuffixName name]

/-- The nonempty proper prefixes of a relative path (the intermediate
directories `extractall` materializes). -/
def properPrefixes (l : FPath) : List FPath :=
  ((List.range l.length).drop 1).map (fun i => l.take i)

/-- `target_dir.mkdir(...)` followed by `extractall(target_dir)`. -/
def zipExtract (fs : FS) (tgt : FPath) (zc : List (FPath × Bool)) : FS :=
  let fs1 := insertFS fs tgt .dir
  zc.foldl (fun acc re =>
    let acc2 := (properPrefixes re.1).foldl (fun a pre => insertFS a (tgt ++ pre) .dir) acc
    insertFS acc2 (tgt ++ re.1) (if re.2 then .dir else .file .notZip)) fs1

/-- Walk failure: fuel exhaustion (the embedding's recursion bound) or the
uncaught `BadZipFile` raised while expanding the named container. -/
inductive WErr where
  | fuel : WErr
  | badZip (p : FPath) : WErr
deriving DecidableEq

/-- Traversal state while enumerating one directory: the live filesystem,
the entries enqueued by this directory, and the three output lists
(`candidates`, `extracted_dirs`, plus an instrumentation log of the
expansions actually performed). -/
structure WAcc where
  fs : FS
  newQ : List FPath
  cand : List FPath
  extr : List FPath
  expo : List FPath
deriving DecidableEq

/-- The per-entry body of the `for entry in current.iterdir()` loop. -/
def processEntry (acc : WAcc) (pe : FPath × FSEntry) : Except WErr WAcc :=
  match pe.2 with
  | .dir => .ok { acc with newQ := acc.newQ ++ [pe.1] }
  | .file .notZip => .ok { acc with cand := acc.cand ++ [pe.1] }
  | .file (.zip content) =>
    let tgt := targetOf pe.1
    if existsFS acc.fs tgt then
      .ok { acc with newQ := acc.newQ ++ [tgt], extr := acc.extr ++ [tgt] }
    else
      match content with
      | none => .error (.badZip pe.1)
      | some zc =>
        .ok { acc with fs := zipExtract acc.fs tgt zc,
                       newQ := acc.newQ ++ [tgt],
                       extr := acc.extr ++ [tgt],
                       expo := acc.expo ++ [tgt] }

/-- The whole `for entry in current.iterdir()` loop. -/
def processEntries : WAcc → List (FPath × FSEntry) → Except WErr WAcc
  | acc, [] => .ok acc
  | acc, pe :: rest =>
    match processEntry acc pe with
    | .error e => .error e
    | .ok acc2 => processEntries acc2 rest

instance {ε α : Type _} [DecidableEq ε] [DecidableEq α] : DecidableEq (Except ε α) := fun a b =>
  match a, b with
  | .ok x, .ok y =>
    if h : x = y then .isTrue (by rw [h]) else .isFalse (by intro hc; cases hc; exact h rfl)
  | .error x, .error y =>
    if h : x = y then .isTrue (by rw [h]) else .isFalse (by intro hc; cases hc; exact h rfl)
  | .ok _, .error _ => .isFalse (by intro hc; cases hc)
  | .error _, .ok _ => .isFalse (by intro hc; cases hc)

/-- Walk result: final filesystem, `candidates`, `extracted_dirs`, and the
expansion log. -/
structure WOut where
  fs : FS
  cand : List FPath
  extr : List FPath
  expo : List FPath
deriving DecidableEq

/-- The `while queue:` loop with an explicit fuel bound: pop, skip seen or
vanished paths, skip plain files, enumerate a directory and append what it
enqueues. -/
def walkAux : Nat → FS → List FPath → List FPath → List FPath → List FPath → List FPath →
    Except WErr WOut
  | 0, _, _, _, _, _, _ => .error .fuel
  | _ + 1, fs, [], _, cand, extr, expo => .ok ⟨fs, cand, extr, expo⟩
  | fuel + 1, fs, cur :: rest, seen, cand, extr, expo =>
    if seen.contains cur || !existsFS fs cur then
      walkAux fuel fs rest seen cand extr expo
    else
      match lookupFS fs cur with
      | some (.file _) => walkAux fuel fs rest (cur :: seen) cand extr expo
      | _ =>
        match processEntries ⟨fs, [], cand, extr, expo⟩ (childrenOf fs cur) with
        | .error e => .error e
        | .ok acc =>
          walkAux fuel acc.fs (rest ++ acc.newQ) (cur :: seen) acc.cand acc.extr acc.expo

/-- `collect_candidates(root)`: empty result for an absent root, else the
breadth-first walk seeded with the root. -/
def collect_candidates (fuel : Nat) (fs : FS) (root : FPath) : Except WErr WOut :=
  if !existsFS fs root then .ok ⟨fs, [], [], []⟩
  else walkAux fuel fs [root] [] [] [] []

/-! ## Override Reconciler

Embeds `build_overrides_json`, the `ICF_OVERRIDES_JSON_B64` handling and
`decode_override` from `create_icf_issue.py` (lines 211-230). The
composition of `base64.b64decode` and UTF-8 decoding is abstracted as an
oracle `dec : String → Option String`, `none` standing for the raised
`ValueError`/`UnicodeDecodeError`. -/

/-- `build_overrides_json(lines)` (the `not lines` early return coincides
with parsing the empty document). -/
def build_overrides_json (lines : List String) : String :=
  jsonDumps (parseOverrides lines)

/-- The base serialization: the supplied pre-encoded full payload when it
decodes, else the parse of the template lines. -/
def computeOverridesJson (dec : String → Option String) (overridesB64 : String)
    (templateLines : List String) : String :=
  if overridesB64 = "" then build_overrides_json templateLines
  else
    match dec overridesB64 with
    | some s => s
    | none => build_overrides_json templateLines

/-- `decode_override(custom_b64, fallback)`. -/
def decode_override (dec : String → Option String) (customB64 fallback : String) : String :=
  if customB64 = "" then fallback
  else
    match dec customB64 with
    | some s => s
    | none => fallback

/-- The two per-environment effective override documents (qa, prod). -/
def effectiveEnvOverrides (dec : String → Option String) (qaB64 prodB64 base : String) :
    String × String :=
  (decode_override dec qaB64 base, decode_override dec prodB64 base)

/-! ## Idempotent Publisher

Embeds `github_request` (lines 92-115) and the find-or-create protocol of
`main` (lines 285-313) from `create_icf_issue.py`. The HTTP transport is
abstracted: a call either yields the parsed payload or a non-2xx
`HTTPError` with status, reason and body. -/

/-- A remote tracking record as the script reads it. -/
structure Issue where
  number : Nat
  html_url : String
  title : String
deriving DecidableEq

/-- Outcome of one HTTP exchange. -/
inductive HTTPResp (α : Type) where
  | ok (v : α) : HTTPResp α
  | err (status : Nat) (reason : String) (detail : String) : HTTPResp α

/-- The `RuntimeError` message raised on a non-2xx response. -/
def githubErrorMsg (method endpoint : String) (status : Nat) (reason detail : String) : String :=
  "GitHub API " ++ method ++ " " ++ endpoint ++ " failed: "
    ++ toString status ++ " " ++ reason ++ " – " ++ detail

/-- `github_request`: the payload on success, the raised error otherwise. -/
def github_request {α : Type} (method endpoint : String) (resp : HTTPResp α) :
    Except String α :=
  match resp with
  | .ok v => .ok v
  | .err status reason detail => .error (githubErrorMsg method endpoint status reason detail)

/-- The deterministic issue title derived from `GITHUB_RUN_NUMBER`. -/
def computeTitle (runNumber : String) : String :=
  "[CI] Completar ICF_JSON_OVERRIDES – Run #" ++ runNumber

def listEndpoint (owner repo : String) : String :=
  "/repos/" ++ owner ++ "/" ++ repo ++ "/issues?state=open&per_page=100"

def createEndpoint (owner repo : String) : String :=
  "/repos/" ++ owner ++ "/" ++ repo ++ "/issues"

/-- What one publisher invocation reports: issue number, url, and whether a
create call was performed. -/
structure PubResult where
  number : Nat
  url : String
  created : Bool
deriving DecidableEq

/-- The find-or-create protocol of `main`: list open issues, linear-scan
for an exact title match, report it without creating, else create and
report the server's answer. Errors from either call propagate (the script
has no handler, so the run aborts). -/
def publisherFlow (owner repo title _body : String)
    (listResp : HTTPResp (List Issue)) (createResp : HTTPResp Issue) :
    Except String PubResult :=
  match github_request "GET" (listEndpoint owner repo) listResp with
  | .error e => .error e
  | .ok issues =>
    match issues.find? (fun i => i.title == title) with
    | some ex => .ok ⟨ex.number, ex.html_url, false⟩
    | none =>
      match github_request "POST" (createEndpoint owner repo) createResp with
      | .error e => .error e
      | .ok created => .ok ⟨created.number, created.html_url, true⟩

/-! ## Issue-body environment sections

Embeds the `TARGET_MAP`/`PLAN` handling and `overrides_by_env` assembly of
`create_icf_issue.py` `main` (lines 141-149 and 232-241). A decode failure
of `TARGET_MAP` is the `none` case (the script falls back to `{}`). -/

/-- `target_map.get(plan, [])` with the decode-failure fallback to `{}`. -/
def lookupTargets (targetMap : Option (List (String × List String))) (plan : String) :
    List String :=
  match targetMap with
  | none => []
  | some m =>
    match m.lookup plan with
    | some ts => ts
    | none => []

/-- `targeted_envs = set(targets); if not targeted_envs: targeted_envs = {"qa"}`
(the set is only queried for membership, so the list stands for it). -/
def targetedEnvs (targets : List String) : List String :=
  if targets.isEmpty then ["qa"] else targets

def qaSectionStr (j : String) : String := "#### QA\n```json\n" ++ j ++ "\n```"

def prodSectionStr (j : String) : String := "#### Prod\n```json\n" ++ j ++ "\n```"

/-- The `env_sections` list built from the targeted environment set. -/
def envSections (qaJ prodJ : String) (targeted : List String) : List String :=
  (if targeted.contains "qa" then [qaSectionStr qaJ] else [])
    ++ (if targeted.contains "prod" then [prodSectionStr prodJ] else [])

/-- `overrides_by_env`. -/
def overridesByEnv (qaJ prodJ : String) (targeted : List String) : String :=
  let s := envSections qaJ prodJ targeted
  if s.isEmpty then "_(No hay overrides sugeridos)_" else String.intercalate "\n\n" s

/-! ## Output-reporting channel

Embeds `emit_output` and the emission tail of `main` from
`prepare_icf_template.py` (lines 35-42 and 88-193). The filesystem reads
are oracles: `isText` for the UTF-8 check, `readFile` for `read_text`
(`none` = `OSError`), `enc` for base64 encoding. -/

/-- `emit_output(name, value)` folded over an output list: skipped for a
`None` or empty value and when `GITHUB_OUTPUT` is unset. -/
def emit_output (channel : Bool) (name : String) (value : Option String)
    (out : List (String × String)) : List (String × String) :=
  match value with
  | none => out
  | some v => if v = "" then out else if !channel then out else out ++ [(name, v)]

/-- The inputs of the selection-and-emission tail of `main`. -/
structure PrepEnv where
  channel : Bool
  candidates : List FPath
  isText : FPath → Bool
  readFile : FPath → Option String
  fallbackPath : String
  fallbackIsFile : Bool
  fallbackContent : String
  enc : String → String

/-- `Path(source_path).name` for a slash-joined path string. -/
def pyBaseName (s : String) : String := ((s.splitOn "/").getLast?).getD ""

def pathToString (p : FPath) : String := String.intercalate "/" p

/-- Lines 115-153 of `prepare_icf_template.py` `main`: filter, choose and
read the template (falling back to `FALLBACK_TEMPLATE_PATH`), producing the
chosen `(source_path, content)` and the status before the empty-overrides
adjustment. -/
def prepareSelect (env : PrepEnv) : Option (String × String) × String :=
  let cands := filterCandidates env.isText env.candidates
  let chosen := chosenFile cands
  let status0 := if cands.isEmpty then "missing" else "ready"
  let readRes : Option (String × String) :=
    match chosen with
    | none => none
    | some p =>
      match env.readFile p with
      | some c => some (pathToString p, c)
      | none => none
  match readRes with
  | some pc => (some pc, status0)
  | none =>
    if env.fallbackPath ≠ "" ∧ env.fallbackIsFile then
      (some (env.fallbackPath, env.fallbackContent),
       if status0 = "missing" then "fallback" else status0)
    else (none, status0)

/-- Lines 150-193 of `prepare_icf_template.py` `main`: with no content only
the status is reported; otherwise parse the overrides, adjust the status,
and emit the seven outputs in program order. -/
def prepareEmit (env : PrepEnv) : Option (String × String) × String → List (String × String)
  | (none, status1) => emit_output env.channel "icf_template_status" (some status1) []
  | (some (srcPath, content), status1) =>
    let overrides := parseOverrides (pySplitlines content)
    let overridesJson := jsonDumps overrides
    let status2 := if overrides.isEmpty ∧ status1 = "ready" then "empty" else status1
    let o := emit_output env.channel "icf_template_path" (some srcPath) []
    let o := emit_output env.channel "icf_template_source" (some srcPath) o
    let o := if srcPath ≠ "" then
        emit_output env.channel "icf_template_file" (some (pyBaseName srcPath)) o
      else o
    let o := emit_output env.channel "icf_template_content_b64" (some (env.enc content)) o
    let o := emit_output env.channel "icf_overrides_json_b64" (some (env.enc overridesJson)) o
    let o := emit_output env.channel "icf_overrides_qa_json_b64" (some (env.enc overridesJson)) o
    let o := emit_output env.channel "icf_overrides_prod_json_b64" (some (env.enc overridesJson)) o
    emit_output env.channel "icf_template_status" (some status2) o

/-- The emission tail of `main` as a whole. -/
def prepareOutputs (env : PrepEnv) : List (String × String) :=
  prepareEmit env (prepareSelect env)

/-! ## Auxiliary definitions used by the statements -/

/-- `sub` occurs inside `s` as a contiguous substring. -/
def strContains (s sub : String) : Prop := ∃ a b, s = a ++ (sub ++ b)

/-- A concrete decode oracle: only the payload `"q"` decodes, to `"X"`. -/
def decOracle : String → Option String := fun s => if s = "q" then some "X" else none

/-- No file of the filesystem is a container whose extraction raises. -/
def goodFS (fs : FS) : Prop := ∀ pe ∈ fs, pe.2 ≠ FSEntry.file (ZipInfo.zip none)

/-- A root with a container that passes the `is_zipfile` signature check
but whose payload is corrupt (`ZipFile`/`extractall` raises), next to an
ordinary candidate. -/
def fsCorruptZip : FS :=
  [(["r"], .dir),
   (["r", "bad.zip"], .file (.zip none)),
   (["r", "a.properties"], .file .notZip)]

/-- The same root when the malformed file fails the signature check
instead: `is_zipfile` is false, so it is an ordinary file to the walker. -/
def fsBadSignature : FS :=
  [(["r"], .dir),
   (["r", "bad.zip"], .file .notZip),
   (["r", "a.properties"], .file .notZip)]

/-- A root containing exactly one (well-formed) container file. -/
def fsOneContainer : FS :=
  [(["r"], .dir),
   (["r", "pkg.zip"], .file (.zip (some [(["inner.properties"], false)])))]

/-- `fsOneContainer` after the container has been expanded once. -/
def fsOneContainerExpanded : FS :=
  fsOneContainer ++ [(["r", "pkg"], .dir), (["r", "pkg", "inner.properties"], .file .notZip)]

/-- A concrete emission environment: output channel configured, no
candidates discovered, no fallback template. -/
def envNoTemplate : PrepEnv :=
  ⟨true, [], fun _ => true, fun _ => none, "", false, "", fun s => s⟩

/-! ## Helper lemmas -/

/-- The part before the first `=` never contains `=`. -/
theorem splitFirstEq_fst_no_eq : ∀ l : List Char, '=' ∉ (splitFirstEq l).1
  | [] => by simp [splitFirstEq]
  | c :: cs => by
    by_cases h : c = '='
    · simp [splitFirstEq, h]
    · simp only [splitFirstEq, if_neg h]
      intro hmem
      rcases List.mem_cons.mp hmem with h1 | h1
      · exact h h1.symm
      · exact splitFirstEq_fst_no_eq cs h1

/-- Stripping only removes characters. -/
theorem mem_stripChars {c : Char} {l : List Char} (h : c ∈ stripChars l) : c ∈ l := by
  unfold stripChars at h
  have h1 := List.mem_reverse.mp h
  have h2 := (List.dropWhile_sublist pyIsSpace).subset h1
  have h3 := List.mem_reverse.mp h2
  exact (List.dropWhile_sublist pyIsSpace).subset h3

/-- A body-parsed key is the stripped left part of the first-`=` split. -/
theorem parseBody_key_no_eq {s2 : List Char} {k v : String} (h : parseBody s2 = some (k, v)) :
    '=' ∉ k.data := by
  simp only [parseBody] at h
  split at h
  · exact absurd h (by simp)
  · rw [Option.some.injEq, Prod.mk.injEq] at h
    intro hc
    have hk := h.1
    rw [← hk] at hc
    exact splitFirstEq_fst_no_eq _ (mem_stripChars hc)

/-- A parsed key is the stripped left part of the first-`=` split. -/
theorem parseKV_key_no_eq {raw k v : String} (h : parseKV raw = some (k, v)) :
    '=' ∉ k.data := by
  simp only [parseKV] at h
  split at h
  · exact absurd h (by simp)
  · exact parseBody_key_no_eq h

/-- `insertKV` preserves a property of all stored keys. -/
theorem insertKV_key_prop {P : String → Prop} {m : List (String × String)} {k v : String}
    (hm : ∀ kv ∈ m, P kv.1) (hk : P k) : ∀ kv ∈ insertKV m k v, P kv.1 := by
  intro kv hkv
  unfold insertKV at hkv
  split at hkv
  · rcases List.mem_map.mp hkv with ⟨q, hq, hqe⟩
    by_cases hc : q.1 == k
    · rw [if_pos hc] at hqe
      cases hqe
      exact hk
    · rw [if_neg hc] at hqe
      cases hqe
      exact hm _ hq
  · rcases List.mem_append.mp hkv with h1 | h1
    · exact hm kv h1
    · rw [List.mem_singleton] at h1
      cases h1
      exact hk

/-- The parsing fold preserves `=`-freedom of the keys. -/
theorem parseFold_keys : ∀ (ls : List String) (m0 : List (String × String)),
    (∀ kv ∈ m0, '=' ∉ kv.1.data) →
    ∀ kv ∈ ls.foldl
        (fun m raw =>
          match parseKV raw with
          | none => m
          | some kv2 => insertKV m kv2.1 kv2.2) m0,
      '=' ∉ kv.1.data := by
  intro ls
  induction ls with
  | nil => intro m0 hm0 kv hkv; exact hm0 kv hkv
  | cons raw rest ih =>
    intro m0 hm0 kv hkv
    rw [List.foldl_cons] at hkv
    cases hp : parseKV raw with
    | none =>
      rw [hp] at hkv
      exact ih m0 hm0 kv hkv
    | some kv2 =>
      rw [hp] at hkv
      refine ih _ ?_ kv hkv
      obtain ⟨k2, v2⟩ := kv2
      exact insertKV_key_prop (P := fun k => '=' ∉ k.data) hm0 (parseKV_key_no_eq hp)

/-- `find?` returns the head of the filtered list. -/
theorem find?_eq_head?_filter {α : Type _} (p : α → Bool) :
    ∀ l : List α, l.find? p = (l.filter p).head? := by
  intro l
  induction l with
  | nil => rfl
  | cons a t ih =>
    by_cases h : p a
    · rw [List.find?_cons_of_pos _ h, List.filter_cons_of_pos h]
      rfl
    · rw [List.find?_cons_of_neg _ h, List.filter_cons_of_neg h, ih]

/-- String concatenation is associative. -/
theorem strAppend_assoc (a b c : String) : (a ++ b) ++ c = a ++ (b ++ c) := by
  apply String.ext
  simp [String.data_append, List.append_assoc]

/-- A QA section string is never a Prod section string (they differ at
character index 5). -/
theorem qaSection_ne_prodSection (a b : String) : qaSectionStr a ≠ prodSectionStr b := by
  intro h
  have hd : (qaSectionStr a).data = (prodSectionStr b).data := congrArg String.data h
  simp [qaSectionStr, prodSectionStr, String.data_append] at hd

/-! ## Claim theorems -/

/-- C2: on the document `## ---- marker ----`, `plan.name=qa`, `# comment`,
`db.host = 10.0.0.1`, the parser's body offset is 1 (past the section
marker), the full-comment line yields no entry, and the OverrideMap is
exactly plan.name ↦ qa, db.host ↦ 10.0.0.1 with key and value trimmed
around the first `=`. -/
theorem c2_parser_example :
    bodyStartIdx ["## ---- marker ----", "plan.name=qa", "# comment", "db.host = 10.0.0.1"] = 1
    ∧ parseKV "# comment" = none
    ∧ parseKV "db.host = 10.0.0.1" = some ("db.host", "10.0.0.1")
    ∧ parseOverrides ["## ---- marker ----", "plan.name=qa", "# comment", "db.host = 10.0.0.1"]
        = [("plan.name", "qa"), ("db.host", "10.0.0.1")] := by decide

/-- C4 counterexample: the claim that every stored key AND value is free of
the raw `=` delimiter fails on the single-line document `a=b=c`, whose
stored value is `b=c`. -/
theorem c4_delimiter_counterexample :
    ¬ (∀ (lines : List String), ∀ kv ∈ parseOverrides lines,
        '=' ∉ kv.1.data ∧ '=' ∉ kv.2.data) := by
  intro h
  have hv := (h ["a=b=c"] ("a", "b=c") (by decide)).2
  exact hv (by decide)

/-- C4 amended: for every input document, every key stored in the
OverrideMap is free of the raw `=` delimiter (the split is on the first
`=`, so values of lines with several `=` may retain it). -/
theorem c4_keys_no_delim :
    ∀ (lines : List String) (k v : String), (k, v) ∈ parseOverrides lines → '=' ∉ k.data := by
  intro lines k v h
  exact parseFold_keys _ [] (by simp) (k, v) h

/-- C4 witness: the key parsed from `plan.name=qa` contains no `=`. -/
theorem c4_keys_no_delim_witness :
    ("plan.name", "qa") ∈ parseOverrides ["plan.name=qa"]
    ∧ '=' ∉ ("plan.name" : String).data :=
  ⟨by decide, c4_keys_no_delim ["plan.name=qa"] "plan.name" "qa" (by decide)⟩

/-- C7: per environment, an absent pre-encoded payload yields the base
serialization, a successfully decoding payload is used verbatim, a decode
failure falls back to the base serialization without aborting, and the
prod result is independent of the qa payload (failure is per-environment). -/
theorem c7_override_fallback :
    ∀ (dec : String → Option String) (qaB64 prodB64 base : String),
      (qaB64 = "" → (effectiveEnvOverrides dec qaB64 prodB64 base).1 = base)
      ∧ (∀ s, qaB64 ≠ "" → dec qaB64 = some s →
          (effectiveEnvOverrides dec qaB64 prodB64 base).1 = s)
      ∧ (dec qaB64 = none → (effectiveEnvOverrides dec qaB64 prodB64 base).1 = base)
      ∧ (prodB64 = "" → (effectiveEnvOverrides dec qaB64 prodB64 base).2 = base)
      ∧ (∀ s, prodB64 ≠ "" → dec prodB64 = some s →
          (effectiveEnvOverrides dec qaB64 prodB64 base).2 = s)
      ∧ (dec prodB64 = none → (effectiveEnvOverrides dec qaB64 prodB64 base).2 = base)
      ∧ (effectiveEnvOverrides dec qaB64 prodB64 base).2 = decode_override dec prodB64 base := by
  intro dec qa prod base
  refine ⟨fun h => ?_, fun s hne hdec => ?_, fun hdec => ?_,
          fun h => ?_, fun s hne hdec => ?_, fun hdec => ?_, rfl⟩
  · simp [effectiveEnvOverrides, decode_override, h]
  · simp [effectiveEnvOverrides, decode_override, hne, hdec]
  · by_cases h : qa = "" <;> simp [effectiveEnvOverrides, decode_override, h, hdec]
  · simp [effectiveEnvOverrides, decode_override, h]
  · simp [effectiveEnvOverrides, decode_override, hne, hdec]
  · by_cases h : prod = "" <;> simp [effectiveEnvOverrides, decode_override, h, hdec]

/-- C7 witness: a decodable qa payload is used verbatim while the absent
prod payload falls back to the base serialization. -/
theorem c7_override_fallback_witness :
    (effectiveEnvOverrides decOracle "q" "" "base").1 = "X"
    ∧ (effectiveEnvOverrides decOracle "q" "" "base").2 = "base" :=
  ⟨(c7_override_fallback decOracle "q" "" "base").2.1 "X" (by decide) (by decide),
   (c7_override_fallback decOracle "q" "" "base").2.2.2.1 (by decide)⟩

/-- C9: a plan whose mapping yields no targets (including a malformed or
empty mapping) is treated as exactly the set qa — the QA section is
rendered alone in that case — and a Prod section is rendered only when
`prod` is among the mapped targets. -/
theorem c9_default_qa :
    ∀ (tm : Option (List (String × List String))) (plan qaJ prodJ : String),
      (lookupTargets tm plan = [] →
        targetedEnvs (lookupTargets tm plan) = ["qa"]
        ∧ envSections qaJ prodJ (targetedEnvs (lookupTargets tm plan)) = [qaSectionStr qaJ])
      ∧ lookupTargets none plan = []
      ∧ lookupTargets (some []) plan = []
      ∧ (prodSectionStr prodJ ∈ envSections qaJ prodJ (targetedEnvs (lookupTargets tm plan)) →
          "prod" ∈ lookupTargets tm plan) := by
  intro tm plan qaJ prodJ
  refine ⟨fun h => ?_, rfl, rfl, fun hmem => ?_⟩
  · rw [h]
    exact ⟨rfl, by simp [targetedEnvs, envSections]⟩
  · by_cases hp : "prod" ∈ lookupTargets tm plan
    · exact hp
    · exfalso
      have hnp : (targetedEnvs (lookupTargets tm plan)).contains "prod" = false := by
        unfold targetedEnvs
        split
        · decide
        · simpa using hp
      rw [envSections, hnp] at hmem
      simp at hmem
      rcases hmem with ⟨hqa, heq⟩
      exact qaSection_ne_prodSection qaJ prodJ heq.symm

/-- C9 witness: with a malformed mapping the targeted set is exactly qa and
only the QA section is rendered. -/
theorem c9_default_qa_witness :
    targetedEnvs (lookupTargets none "ProcessFlow") = ["qa"]
    ∧ envSections "qa-json" "prod-json" (targetedEnvs (lookupTargets none "ProcessFlow"))
        = [qaSectionStr "qa-json"] :=
  (c9_default_qa none "ProcessFlow" "qa-json" "prod-json").1 rfl

/-- A string of the shape `a ++ sub ++ b` contains `sub`. -/
theorem strContains_mid (a sub b : String) : strContains (a ++ sub ++ b) sub :=
  ⟨a, b, strAppend_assoc a sub b⟩

/-- The error text of `github_request` contains the method, the endpoint,
the status, the reason and the body. -/
theorem githubErrorMsg_contains (method endpoint : String) (status : Nat)
    (reason detail : String) :
    strContains (githubErrorMsg method endpoint status reason detail) method
    ∧ strContains (githubErrorMsg method endpoint status reason detail) endpoint
    ∧ strContains (githubErrorMsg method endpoint status reason detail) (toString status)
    ∧ strContains (githubErrorMsg method endpoint status reason detail) reason
    ∧ strContains (githubErrorMsg method endpoint status reason detail) detail := by
  refine ⟨?_, ?_, ?_, ?_, ?_⟩
  · have h2 : githubErrorMsg method endpoint status reason detail
        = "GitHub API " ++ method
          ++ (" " ++ endpoint ++ " failed: " ++ toString status ++ " " ++ reason ++ " – " ++ detail) := by
      simp [githubErrorMsg, strAppend_assoc]
    exact h2 ▸ strContains_mid _ _ _
  · have h2 : githubErrorMsg method endpoint status reason detail
        = ("GitHub API " ++ method ++ " ") ++ endpoint
          ++ (" failed: " ++ toString status ++ " " ++ reason ++ " – " ++ detail) := by
      simp [githubErrorMsg, strAppend_assoc]
    exact h2 ▸ strContains_mid _ _ _
  · have h2 : githubErrorMsg method endpoint status reason detail
        = ("GitHub API " ++ method ++ " " ++ endpoint ++ " failed: ") ++ toString status
          ++ (" " ++ reason ++ " – " ++ detail) := by
      simp [githubErrorMsg, strAppend_assoc]
    exact h2 ▸ strContains_mid _ _ _
  · have h2 : githubErrorMsg method endpoint status reason detail
        = ("GitHub API " ++ method ++ " " ++ endpoint ++ " failed: " ++ toString status ++ " ")
          ++ reason ++ (" – " ++ detail) := by
      simp [githubErrorMsg, strAppend_assoc]
    exact h2 ▸ strContains_mid _ _ _
  · have h2 : githubErrorMsg method endpoint status reason detail
        = ("GitHub API " ++ method ++ " " ++ endpoint ++ " failed: " ++ toString status ++ " "
            ++ reason ++ " – ") ++ detail ++ "" := by
      simp [githubErrorMsg, strAppend_assoc]
    exact h2 ▸ strContains_mid _ _ _

/-- C8: a non-2xx response to the list call or to the create call makes the
publisher flow abort with the `github_request` error, whose message carries
the HTTP method, the endpoint path, the numeric status, the reason phrase
and the response body; there is no non-error continuation past it. -/
theorem c8_error_message :
    ∀ (owner repo title body : String) (status : Nat) (reason detail : String)
      (createResp : HTTPResp Issue),
      (publisherFlow owner repo title body (.err status reason detail) createResp
          = .error (githubErrorMsg "GET" (listEndpoint owner repo) status reason detail)
        ∧ strContains (githubErrorMsg "GET" (listEndpoint owner repo) status reason detail) "GET"
        ∧ strContains (githubErrorMsg "GET" (listEndpoint owner repo) status reason detail)
            (listEndpoint owner repo)
        ∧ strContains (githubErrorMsg "GET" (listEndpoint owner repo) status reason detail)
            (toString status)
        ∧ strContains (githubErrorMsg "GET" (listEndpoint owner repo) status reason detail) reason
        ∧ strContains (githubErrorMsg "GET" (listEndpoint owner repo) status reason detail) detail)
      ∧ (publisherFlow owner repo title body (.ok []) (.err status reason detail)
          = .error (githubErrorMsg "POST" (createEndpoint owner repo) status reason detail)
        ∧ strContains (githubErrorMsg "POST" (createEndpoint owner repo) status reason detail) "POST"
        ∧ strContains (githubErrorMsg "POST" (createEndpoint owner repo) status reason detail)
            (createEndpoint owner repo)
        ∧ strContains (githubErrorMsg "POST" (createEndpoint owner repo) status reason detail)
            (toString status)
        ∧ strContains (githubErrorMsg "POST" (createEndpoint owner repo) status reason detail) reason
        ∧ strContains (githubErrorMsg "POST" (createEndpoint owner repo) status reason detail) detail) := by
  intro owner repo title body status reason detail createResp
  have hget := githubErrorMsg_contains "GET" (listEndpoint owner repo) status reason detail
  have hpost := githubErrorMsg_contains "POST" (createEndpoint owner repo) status reason detail
  refine ⟨⟨rfl, hget.1, hget.2.1, hget.2.2.1, hget.2.2.2.1, hget.2.2.2.2⟩,
          ⟨rfl, hpost.1, hpost.2.1, hpost.2.2.1, hpost.2.2.2.1, hpost.2.2.2.2⟩⟩

/-- C1: two publisher invocations with the same computed title, the second
seeing the record created by the first as the sole title match in its list
response, report the same number and url; the first performs the create,
the second reports without creating (whatever the create transport would
answer), and the remote list holds exactly one record with that title. -/
theorem c1_publisher_idempotent :
    ∀ (owner repo runNumber body1 body2 : String) (issues0 issues1 : List Issue)
      (n1 : Nat) (u1 : String) (createResp2 : HTTPResp Issue),
      (∀ i ∈ issues0, i.title ≠ computeTitle runNumber) →
      issues1.filter (fun i => i.title == computeTitle runNumber)
          = [⟨n1, u1, computeTitle runNumber⟩] →
      publisherFlow owner repo (computeTitle runNumber) body1 (.ok issues0)
          (.ok ⟨n1, u1, computeTitle runNumber⟩) = .ok ⟨n1, u1, true⟩
      ∧ publisherFlow owner repo (computeTitle runNumber) body2 (.ok issues1) createResp2
          = .ok ⟨n1, u1, false⟩
      ∧ issues1.countP (fun i => i.title == computeTitle runNumber) = 1
      ∧ (issues1.find? (fun i => i.title == computeTitle runNumber)).map Issue.title
          = some (computeTitle runNumber) := by
  intro owner repo runNumber body1 body2 issues0 issues1 n1 u1 createResp2 h0 h1
  have hfind0 : issues0.find? (fun i => i.title == computeTitle runNumber) = none := by
    rw [List.find?_eq_none]
    intro i hi
    simpa using h0 i hi
  have hfind1 : issues1.find? (fun i => i.title == computeTitle runNumber)
      = some ⟨n1, u1, computeTitle runNumber⟩ := by
    rw [find?_eq_head?_filter, h1]
    rfl
  refine ⟨?_, ?_, ?_, ?_⟩
  · simp [publisherFlow, github_request, hfind0]
  · simp [publisherFlow, github_request, hfind1]
  · rw [List.countP_eq_length_filter, h1]
    rfl
  · rw [hfind1]
    rfl

/-- C1 witness: run 42 with an initially empty remote list — the create
reports number 7, the second invocation finds it and reports the same. -/
theorem c1_publisher_idempotent_witness :
    publisherFlow "o" "r" (computeTitle "42") "b1" (.ok [])
        (.ok ⟨7, "u7", computeTitle "42"⟩) = .ok ⟨7, "u7", true⟩
    ∧ publisherFlow "o" "r" (computeTitle "42") "b2"
        (.ok [⟨7, "u7", computeTitle "42"⟩]) (.err 500 "Internal Server Error" "boom")
        = .ok ⟨7, "u7", false⟩
    ∧ ([⟨7, "u7", computeTitle "42"⟩] : List Issue).countP
        (fun i => i.title == computeTitle "42") = 1
    ∧ (([⟨7, "u7", computeTitle "42"⟩] : List Issue).find?
        (fun i => i.title == computeTitle "42")).map Issue.title = some (computeTitle "42") :=
  c1_publisher_idempotent "o" "r" "42" "b1" "b2" [] [⟨7, "u7", computeTitle "42"⟩] 7 "u7"
    (.err 500 "Internal Server Error" "boom") (by simp) (by decide)

/-! ## Selector order lemmas (C5) -/

theorem char_toNat_inj {a b : Char} (h : a.toNat = b.toNat) : a = b := by
  apply Char.ext
  apply UInt32.ext
  exact h

/-- `charListLE` on a cons pair, as a disjunction. -/
theorem charListLE_cons_iff (a b : Char) (as bs : List Char) :
    charListLE (a :: as) (b :: bs) = true ↔
      a.toNat < b.toNat ∨ (a.toNat = b.toNat ∧ charListLE as bs = true) := by
  rcases Nat.lt_trichotomy a.toNat b.toNat with h | h | h
  · simp [charListLE, h]
  · simp [charListLE, h]
  · have h1 : ¬ a.toNat < b.toNat := Nat.lt_asymm h
    have h2 : a.toNat ≠ b.toNat := Nat.ne_of_gt h
    simp [charListLE, h, h1, h2]

theorem charListLE_refl : ∀ l : List Char, charListLE l l = true
  | [] => rfl
  | a :: as => by
    rw [charListLE_cons_iff]
    exact .inr ⟨rfl, charListLE_refl as⟩

theorem charListLE_total : ∀ x y : List Char, charListLE x y = true ∨ charListLE y x = true
  | [], _ => .inl rfl
  | _ :: _, [] => .inr rfl
  | a :: as, b :: bs => by
    rw [charListLE_cons_iff, charListLE_cons_iff]
    rcases Nat.lt_trichotomy a.toNat b.toNat with h | h | h
    · exact .inl (.inl h)
    · rcases charListLE_total as bs with ih | ih
      · exact .inl (.inr ⟨h, ih⟩)
      · exact .inr (.inr ⟨h.symm, ih⟩)
    · exact .inr (.inl h)

theorem charListLE_trans : ∀ x y z : List Char,
    charListLE x y = true → charListLE y z = true → charListLE x z = true
  | [], _, _ => by intro _ _; rfl
  | a :: as, [], _ => by intro h _; exact absurd h (by simp [charListLE])
  | _ :: _, _ :: _, [] => by intro _ h; exact absurd h (by simp [charListLE])
  | a :: as, b :: bs, c :: cs => by
    intro h1 h2
    rw [charListLE_cons_iff] at h1 h2 ⊢
    rcases h1 with h1 | ⟨e1, r1⟩
    · rcases h2 with h2 | ⟨e2, _⟩
      · exact .inl (Nat.lt_trans h1 h2)
      · exact .inl (by omega)
    · rcases h2 with h2 | ⟨e2, r2⟩
      · exact .inl (by omega)
      · exact .inr ⟨e1.trans e2, charListLE_trans as bs cs r1 r2⟩

theorem charListLE_antisymm : ∀ x y : List Char,
    charListLE x y = true → charListLE y x = true → x = y
  | [], [] => by intro _ _; rfl
  | [], _ :: _ => by intro _ h; exact absurd h (by simp [charListLE])
  | _ :: _, [] => by intro h _; exact absurd h (by simp [charListLE])
  | a :: as, b :: bs => by
    intro h1 h2
    rw [charListLE_cons_iff] at h1 h2
    rcases h1 with h1 | ⟨e1, r1⟩
    · rcases h2 with h2 | ⟨e2, _⟩
      · exact absurd h2 (Nat.lt_asymm h1)
      · exact absurd e2 (by omega)
    · rcases h2 with h2 | ⟨e2, r2⟩
      · exact absurd e1 (by omega)
      · rw [char_toNat_inj e1, charListLE_antisymm as bs r1 r2]

theorem keyLE_refl (a : Nat × Nat × String) : keyLE a a :=
  .inr ⟨rfl, .inr ⟨rfl, charListLE_refl _⟩⟩

theorem keyLE_total (a b : Nat × Nat × String) : keyLE a b ∨ keyLE b a := by
  unfold keyLE
  rcases Nat.lt_trichotomy a.1 b.1 with h | h | h
  · exact .inl (.inl h)
  · rcases Nat.lt_trichotomy a.2.1 b.2.1 with h2 | h2 | h2
    · exact .inl (.inr ⟨h, .inl h2⟩)
    · rcases charListLE_total a.2.2.data b.2.2.data with h3 | h3
      · exact .inl (.inr ⟨h, .inr ⟨h2, h3⟩⟩)
      · exact .inr (.inr ⟨h.symm, .inr ⟨h2.symm, h3⟩⟩)
    · exact .inr (.inr ⟨h.symm, .inl h2⟩)
  · exact .inr (.inl h)

theorem keyLE_trans (a b c : Nat × Nat × String) (h1 : keyLE a b) (h2 : keyLE b c) :
    keyLE a c := by
  unfold keyLE at h1 h2 ⊢
  rcases h1 with h1 | ⟨e1, h1⟩
  · rcases h2 with h2 | ⟨e2, _⟩
    · exact .inl (Nat.lt_trans h1 h2)
    · exact .inl (by omega)
  · rcases h2 with h2 | ⟨e2, h2⟩
    · exact .inl (by omega)
    · rcases h1 with h1 | ⟨f1, h1⟩
      · rcases h2 with h2 | ⟨f2, _⟩
        · exact .inr ⟨e1.trans e2, .inl (Nat.lt_trans h1 h2)⟩
        · exact .inr ⟨e1.trans e2, .inl (by omega)⟩
      · rcases h2 with h2 | ⟨f2, h2⟩
        · exact .inr ⟨e1.trans e2, .inl (by omega)⟩
        · exact .inr ⟨e1.trans e2, .inr ⟨f1.trans f2, charListLE_trans _ _ _ h1 h2⟩⟩

theorem keyLE_antisymm (a b : Nat × Nat × String) (h1 : keyLE a b) (h2 : keyLE b a) :
    a = b := by
  obtain ⟨a1, a2, a3⟩ := a
  obtain ⟨b1, b2, b3⟩ := b
  unfold keyLE at h1 h2
  simp only at h1 h2
  rcases h1 with h1 | ⟨e1, h1⟩
  · rcases h2 with h2 | ⟨e2, _⟩
    · exact absurd h2 (Nat.lt_asymm h1)
    · exact absurd e2 (by omega)
  · rcases h2 with h2 | ⟨e2, h2⟩
    · exact absurd e1 (by omega)
    · rcases h1 with h1 | ⟨f1, h1⟩
      · rcases h2 with h2 | ⟨f2, _⟩
        · exact absurd h2 (Nat.lt_asymm h1)
        · exact absurd f2 (by omega)
      · rcases h2 with h2 | ⟨f2, h2⟩
        · exact absurd f1 (by omega)
        · have h3 : a3 = b3 := String.ext (charListLE_antisymm _ _ h1 h2)
          rw [e1, f1, h3]

instance : IsTotal FPath preferLE := ⟨fun p q => keyLE_total (prefer_key p) (prefer_key q)⟩

instance : IsTrans FPath preferLE := ⟨fun _ _ _ h1 h2 => keyLE_trans _ _ _ h1 h2⟩

theorem preferLE_refl (p : FPath) : preferLE p p := keyLE_refl _

/-- `chosenFile` of the empty candidate list only. -/
theorem chosenFile_nil : chosenFile ([] : List FPath) = none := rfl

/-- C5 counterexample: selection is not a pure function of the candidate
set — two same-named `.properties` files in different directories tie on
the composite key, and the stable sort keeps enumeration order, so the two
enumerations of the same set choose different files. -/
theorem c5_selector_counterexample :
    ¬ (∀ (l1 l2 : List FPath), l1.Perm l2 → chosenFile l1 = chosenFile l2) := by
  intro h
  have hc := h [["d1", "x.properties"], ["d2", "x.properties"]]
               [["d2", "x.properties"], ["d1", "x.properties"]]
               (List.Perm.swap _ _ _)
  rw [show chosenFile [["d1", "x.properties"], ["d2", "x.properties"]]
        = some ["d1", "x.properties"] from by decide,
      show chosenFile [["d2", "x.properties"], ["d1", "x.properties"]]
        = some ["d2", "x.properties"] from by decide] at hc
  exact absurd hc (by decide)

/-- C5 amended: whenever the composite key `prefer_key` is injective on the
candidate set (in particular whenever all candidate file names differ), the
chosen file is independent of the enumeration order; with key collisions
the stable sort keeps the enumeration order, so only this restricted
determinism holds. -/
theorem c5_selector_deterministic_inj :
    ∀ (l1 l2 : List FPath), l1.Perm l2 →
      (∀ a ∈ l1, ∀ b ∈ l1, prefer_key a = prefer_key b → a = b) →
      chosenFile l1 = chosenFile l2 := by
  intro l1 l2 hperm hinj
  unfold chosenFile
  have hs1 : (List.insertionSort preferLE l1).Perm l1 := List.perm_insertionSort _ _
  have hs2 : (List.insertionSort preferLE l2).Perm l2 := List.perm_insertionSort _ _
  cases hc1 : List.insertionSort preferLE l1 with
  | nil =>
    have h0 : l1 = [] := by
      rw [hc1] at hs1
      exact hs1.symm.eq_nil
    have h2 : l2 = [] := (h0 ▸ hperm).symm.eq_nil
    have h3 : List.insertionSort preferLE l2 = [] := by simp [h2]
    rw [h3]
  | cons h1 t1 =>
    cases hc2 : List.insertionSort preferLE l2 with
    | nil =>
      exfalso
      have h0 : l2 = [] := by
        rw [hc2] at hs2
        exact hs2.symm.eq_nil
      have h2 : l1 = [] := (h0 ▸ hperm.symm).symm.eq_nil
      rw [h2] at hc1
      exact absurd hc1 (by simp)
    | cons h2 t2 =>
      have hmem1 : h1 ∈ l1 := by
        have hm : h1 ∈ List.insertionSort preferLE l1 := by
          rw [hc1]
          exact List.mem_cons_self _ _
        exact hs1.subset hm
      have hmem2l2 : h2 ∈ l2 := by
        have hm : h2 ∈ List.insertionSort preferLE l2 := by
          rw [hc2]
          exact List.mem_cons_self _ _
        exact hs2.subset hm
      have hmem2 : h2 ∈ l1 := hperm.mem_iff.mpr hmem2l2
      have hmem1l2 : h1 ∈ l2 := hperm.mem_iff.mp hmem1
      have hsorted1 : List.Sorted preferLE (h1 :: t1) := by
        rw [← hc1]
        exact List.sorted_insertionSort preferLE l1
      have hsorted2 : List.Sorted preferLE (h2 :: t2) := by
        rw [← hc2]
        exact List.sorted_insertionSort preferLE l2
      have hle12 : preferLE h1 h2 := by
        have hin : h2 ∈ List.insertionSort preferLE l1 := by
          rw [List.mem_insertionSort]
          exact hmem2
        rw [hc1] at hin
        rcases List.mem_cons.mp hin with he | ht
        · rw [he]
          exact preferLE_refl _
        · exact List.rel_of_sorted_cons hsorted1 _ ht
      have hle21 : preferLE h2 h1 := by
        have hin : h1 ∈ List.insertionSort preferLE l2 := by
          rw [List.mem_insertionSort]
          exact hmem1l2
        rw [hc2] at hin
        rcases List.mem_cons.mp hin with he | ht
        · rw [he]
          exact preferLE_refl _
        · exact List.rel_of_sorted_cons hsorted2 _ ht
      have hkey : prefer_key h1 = prefer_key h2 := keyLE_antisymm _ _ hle12 hle21
      rw [hinj h1 hmem1 h2 hmem2 hkey]
      rfl

/-- C5 witness: two enumerations of a two-candidate set with distinct keys
choose the same file. -/
theorem c5_selector_deterministic_inj_witness :
    chosenFile [["a.properties"], ["override.txt"]]
      = chosenFile [["override.txt"], ["a.properties"]] :=
  c5_selector_deterministic_inj [["a.properties"], ["override.txt"]]
    [["override.txt"], ["a.properties"]] (List.Perm.swap _ _ _) (by decide)

/-! ## Walker lemmas (C3, C6) -/

theorem insertFS_good {fs : FS} {p : FPath} {e : FSEntry} (hfs : goodFS fs)
    (he : e ≠ FSEntry.file (ZipInfo.zip none)) : goodFS (insertFS fs p e) := by
  intro q hq
  unfold insertFS at hq
  split at hq
  · rcases List.mem_map.mp hq with ⟨w, hw, hwe⟩
    by_cases hc : w.1 == p
    · rw [if_pos hc] at hwe
      cases hwe
      exact he
    · rw [if_neg hc] at hwe
      cases hwe
      exact hfs _ hw
  · rcases List.mem_append.mp hq with h | h
    · exact hfs _ h
    · rw [List.mem_singleton] at h
      cases h
      exact he

theorem foldl_mkdir_good (tgt : FPath) : ∀ (ps : List FPath) (acc : FS), goodFS acc →
    goodFS (ps.foldl (fun a pre => insertFS a (tgt ++ pre) FSEntry.dir) acc)
  | [], _, h => h
  | _ :: ps, _, h => foldl_mkdir_good tgt ps _ (insertFS_good h (by simp))

/-- Extraction inserts only directories and plain files, so it preserves
the absence of corrupt containers. -/
theorem zipExtract_good {fs : FS} {tgt : FPath} {zc : List (FPath × Bool)}
    (hfs : goodFS fs) : goodFS (zipExtract fs tgt zc) := by
  unfold zipExtract
  have hgo : ∀ (l : List (FPath × Bool)) (acc : FS), goodFS acc →
      goodFS (l.foldl (fun acc2 re =>
        insertFS ((properPrefixes re.1).foldl
            (fun a pre => insertFS a (tgt ++ pre) FSEntry.dir) acc2)
          (tgt ++ re.1) (if re.2 then .dir else .file .notZip)) acc) := by
    intro l
    induction l with
    | nil => exact fun _ h => h
    | cons re rest ih =>
      intro acc hacc
      rw [List.foldl_cons]
      apply ih
      refine insertFS_good (foldl_mkdir_good tgt _ _ hacc) ?_
      rcases re with ⟨rp, rb⟩
      cases rb <;> simp
  exact hgo zc _ (insertFS_good hfs (by simp))

/-- On a well-formed entry the loop body succeeds and keeps the filesystem
free of corrupt containers. -/
theorem processEntry_good (acc : WAcc) {pe : FPath × FSEntry} (hacc : goodFS acc.fs)
    (hpe : pe.2 ≠ FSEntry.file (ZipInfo.zip none)) :
    ∃ acc2, processEntry acc pe = .ok acc2 ∧ goodFS acc2.fs := by
  rcases pe with ⟨p, e⟩
  cases e with
  | dir => exact ⟨_, rfl, hacc⟩
  | file z =>
    cases z with
    | notZip => exact ⟨_, rfl, hacc⟩
    | zip content =>
      cases content with
      | none => exact absurd rfl hpe
      | some zc =>
        by_cases h : existsFS acc.fs (targetOf p) = true
        · exact ⟨⟨acc.fs, acc.newQ ++ [targetOf p], acc.cand, acc.extr ++ [targetOf p],
                  acc.expo⟩,
                 by simp [processEntry, h], hacc⟩
        · exact ⟨⟨zipExtract acc.fs (targetOf p) zc, acc.newQ ++ [targetOf p], acc.cand,
                  acc.extr ++ [targetOf p], acc.expo ++ [targetOf p]⟩,
                 by simp [processEntry, h], zipExtract_good hacc⟩

theorem processEntries_good : ∀ (es : List (FPath × FSEntry)) (acc : WAcc),
    goodFS acc.fs → (∀ pe ∈ es, pe.2 ≠ FSEntry.file (ZipInfo.zip none)) →
    ∃ acc2, processEntries acc es = .ok acc2 ∧ goodFS acc2.fs
  | [], acc, h, _ => ⟨acc, rfl, h⟩
  | pe :: rest, acc, h, hes => by
    obtain ⟨acc2, he, hg⟩ := processEntry_good acc h (hes pe (List.mem_cons_self _ _))
    obtain ⟨acc3, he3, hg3⟩ :=
      processEntries_good rest acc2 hg (fun q hq => hes q (List.mem_cons_of_mem _ hq))
    refine ⟨acc3, ?_, hg3⟩
    simp only [processEntries]
    rw [he]
    exact he3

theorem childrenOf_subset {fs : FS} {p : FPath} : ∀ pe ∈ childrenOf fs p, pe ∈ fs :=
  fun _ hpe => (List.mem_filter.mp hpe).1

/-- On a filesystem free of corrupt containers, the walk never aborts with
the `BadZipFile` error (whatever the fuel, queue or outputs). -/
theorem walkAux_no_badZip : ∀ (fuel : Nat) (fs : FS) (q seen c e x : List FPath) (p : FPath),
    goodFS fs → walkAux fuel fs q seen c e x ≠ .error (.badZip p)
  | 0, _, _, _, _, _, _, _, _ => by simp [walkAux]
  | _ + 1, _, [], _, _, _, _, _, _ => by simp [walkAux]
  | fuel + 1, fs, cur :: rest, seen, c, e, x, p, h => by
    simp only [walkAux]
    by_cases h1 : (seen.contains cur || !existsFS fs cur) = true
    · rw [if_pos h1]
      exact walkAux_no_badZip fuel fs rest seen c e x p h
    · rw [if_neg h1]
      cases hl : lookupFS fs cur with
      | some entry =>
        cases entry with
        | file z => exact walkAux_no_badZip fuel fs rest (cur :: seen) c e x p h
        | dir =>
          obtain ⟨acc2, hacc2, hg2⟩ := processEntries_good (childrenOf fs cur) ⟨fs, [], c, e, x⟩
            h (fun pe hpe => h pe (childrenOf_subset pe hpe))
          rw [hacc2]
          exact walkAux_no_badZip fuel acc2.fs (rest ++ acc2.newQ) (cur :: seen)
            acc2.cand acc2.extr acc2.expo p hg2
      | none =>
        obtain ⟨acc2, hacc2, hg2⟩ := processEntries_good (childrenOf fs cur) ⟨fs, [], c, e, x⟩
          h (fun pe hpe => h pe (childrenOf_subset pe hpe))
        rw [hacc2]
        exact walkAux_no_badZip fuel acc2.fs (rest ++ acc2.newQ) (cur :: seen)
          acc2.cand acc2.extr acc2.expo p hg2

/-- C3 counterexample: the claim that a malformed (corrupt) container is
skipped with a warning fails — `collect_candidates` has no handler, so a
container that passes the `is_zipfile` signature check but whose payload is
corrupt raises out of the walk, and the sibling candidate is lost. -/
theorem c3_walker_counterexample :
    collect_candidates 10 fsCorruptZip ["r"] = .error (.badZip ["r", "bad.zip"]) := by decide

/-- C3 amended: only a malformed container that fails the `is_zipfile`
signature check is tolerated — it is recorded as a plain candidate and the
walk continues; on any filesystem whose recognized containers all extract,
the walk never aborts with the container error. A container passing the
signature check with a corrupt payload aborts the walk (see the
counterexample). -/
theorem c3_walker_amended :
    (∀ (fuel : Nat) (fs : FS) (root p : FPath), goodFS fs →
        collect_candidates fuel fs root ≠ .error (.badZip p))
    ∧ collect_candidates 10 fsBadSignature ["r"]
        = .ok ⟨fsBadSignature, [["r", "bad.zip"], ["r", "a.properties"]], [], []⟩ := by
  refine ⟨?_, by decide⟩
  intro fuel fs root p hgood
  unfold collect_candidates
  split
  · simp
  · exact walkAux_no_badZip fuel fs [root] [] [] [] [] p hgood

/-- C3 witness: on the signature-failing variant the walk is free of the
container error (and indeed returns the file among the candidates). -/
theorem c3_walker_amended_witness :
    collect_candidates 10 fsBadSignature ["r"] ≠ .error (.badZip ["r", "bad.zip"]) :=
  c3_walker_amended.1 10 fsBadSignature ["r"] ["r", "bad.zip"] (by unfold goodFS; decide)

/-- C6: (i) when the expansion target of a container already exists the
loop body performs no expansion and leaves the filesystem unchanged, yet
still enqueues the target and records it among the extracted directories;
(ii) whenever a container's processing extends the expansion log, its
target did not exist before (and exactly one expansion is logged); and
(iii) on a root containing one container file, the first walk performs
exactly one expansion and the second walk over the resulting filesystem
performs none — while still returning the expanded directory and its
contents. -/
theorem c6_expansion_idempotent :
    (∀ (acc : WAcc) (p : FPath) (content : Option (List (FPath × Bool))),
        existsFS acc.fs (targetOf p) = true →
        processEntry acc (p, .file (.zip content))
          = .ok ⟨acc.fs, acc.newQ ++ [targetOf p], acc.cand,
                 acc.extr ++ [targetOf p], acc.expo⟩)
    ∧ (∀ (acc acc2 : WAcc) (p : FPath) (zc : Option (List (FPath × Bool))),
        processEntry acc (p, .file (.zip zc)) = .ok acc2 →
        acc2.expo ≠ acc.expo →
        existsFS acc.fs (targetOf p) = false ∧ acc2.expo = acc.expo ++ [targetOf p])
    ∧ collect_candidates 12 fsOneContainer ["r"]
        = .ok ⟨fsOneContainerExpanded, [["r", "pkg", "inner.properties"]],
               [["r", "pkg"]], [["r", "pkg"]]⟩
    ∧ collect_candidates 12 fsOneContainerExpanded ["r"]
        = .ok ⟨fsOneContainerExpanded, [["r", "pkg", "inner.properties"]],
               [["r", "pkg"]], []⟩ := by
  refine ⟨?_, ?_, by decide, by decide⟩
  · intro acc p content h
    simp [processEntry, h]
  · intro acc acc2 p zc h hne
    by_cases hex : existsFS acc.fs (targetOf p) = true
    · exfalso
      simp [processEntry, hex] at h
      rw [← h] at hne
      exact hne rfl
    · cases zc with
      | none => simp [processEntry, hex] at h
      | some zdata =>
        simp only [processEntry, hex, if_neg, Bool.false_eq_true, if_false,
          Except.ok.injEq] at h
        refine ⟨by simpa using hex, ?_⟩
        rw [← h]

/-- C6 witness: a second encounter of the container over the expanded
filesystem enqueues and records the existing directory without touching
the filesystem or the expansion log. -/
theorem c6_expansion_idempotent_witness :
    processEntry ⟨fsOneContainerExpanded, [], [], [], []⟩
        (["r", "pkg.zip"], .file (.zip (some [(["inner.properties"], false)])))
      = .ok ⟨fsOneContainerExpanded, [["r", "pkg"]], [], [["r", "pkg"]], []⟩ :=
  (c6_expansion_idempotent.1 ⟨fsOneContainerExpanded, [], [], [], []⟩ ["r", "pkg.zip"]
    (some [(["inner.properties"], false)]) (by decide)).trans (by decide)

/-! ## Output-channel lemmas (C10) -/

/-- An empty selection result can only come from an empty candidate list. -/
theorem chosenFile_eq_none {l : List FPath} (h : chosenFile l = none) : l = [] := by
  unfold chosenFile at h
  rw [List.head?_eq_none_iff] at h
  have hp := List.perm_insertionSort preferLE l
  rw [h] at hp
  exact hp.symm.eq_nil

/-- A non-empty value emitted on a configured channel is in the output. -/
theorem mem_emit_self {n v : String} {o : List (String × String)} (hv : v ≠ "") :
    (n, v) ∈ emit_output true n (some v) o := by
  simp [emit_output, hv]

/-- The status computed by the selection phase is never empty. -/
theorem prepareSelect_snd_ne (env : PrepEnv) : (prepareSelect env).2 ≠ "" := by
  have hbase : ∀ b : Bool, (if b = true then "missing" else "ready") ≠ "" := by
    intro b
    cases b <;> decide
  unfold prepareSelect
  rcases hch : chosenFile (filterCandidates env.isText env.candidates) with _ | p
  · simp only [hch]
    split
    · split <;> simp
    · exact hbase _
  · simp only [hch]
    rcases hrd : env.readFile p with _ | c
    · simp only [hrd]
      split
      · split <;> simp
      · exact hbase _
    · simp only [hrd]
      exact hbase _

/-- When the channel is configured, the emission phase always reports a
non-empty status. -/
theorem prepareEmit_status (env : PrepEnv) (sel : Option (String × String) × String)
    (hst : sel.2 ≠ "") (hch : env.channel = true) :
    ∃ v, v ≠ "" ∧ ("icf_template_status", v) ∈ prepareEmit env sel := by
  rcases sel with ⟨oc, st⟩
  cases oc with
  | none =>
    refine ⟨st, hst, ?_⟩
    have hr : prepareEmit env (none, st)
        = emit_output env.channel "icf_template_status" (some st) [] := rfl
    rw [hr, hch]
    exact mem_emit_self hst
  | some pc =>
    rcases pc with ⟨sp, ct⟩
    by_cases hcond : (parseOverrides (pySplitlines ct)).isEmpty = true ∧ st = "ready"
    · refine ⟨"empty", by decide, ?_⟩
      simp only [prepareEmit, if_pos hcond, hch]
      exact mem_emit_self (by decide)
    · refine ⟨st, hst, ?_⟩
      simp only [prepareEmit, if_neg hcond, hch]
      exact mem_emit_self hst

/-- C10: `emit_output` writes a `name=value` pair only for a non-empty
value on a configured channel; when no template is chosen and no fallback
exists, the run reports only the status `missing` — the path, file and
content outputs are entirely absent — and on a configured channel the
status output is always present with a non-empty value. -/
theorem c10_outputs :
    ∀ env : PrepEnv,
      (∀ name out, emit_output env.channel name none out = out)
      ∧ (∀ name out, emit_output env.channel name (some "") out = out)
      ∧ (∀ name v out, env.channel = false → emit_output env.channel name (some v) out = out)
      ∧ (∀ name v out, env.channel = true → v ≠ "" →
          emit_output env.channel name (some v) out = out ++ [(name, v)])
      ∧ (chosenFile (filterCandidates env.isText env.candidates) = none →
          (env.fallbackPath = "" ∨ env.fallbackIsFile = false) →
          prepareOutputs env = emit_output env.channel "icf_template_status" (some "missing") []
          ∧ (∀ v, ("icf_template_path", v) ∉ prepareOutputs env)
          ∧ (∀ v, ("icf_template_file", v) ∉ prepareOutputs env)
          ∧ (∀ v, ("icf_template_content_b64", v) ∉ prepareOutputs env))
      ∧ (env.channel = true →
          ∃ v, v ≠ "" ∧ ("icf_template_status", v) ∈ prepareOutputs env) := by
  intro env
  refine ⟨fun name out => rfl, fun name out => by simp [emit_output],
          fun name v out hch => ?_, fun name v out hch hv => ?_, fun hnone hfb => ?_, fun hch => ?_⟩
  · by_cases hv : v = "" <;> simp [emit_output, hv, hch]
  · simp [emit_output, hv, hch]
  · have hc : filterCandidates env.isText env.candidates = [] := chosenFile_eq_none hnone
    have hcond : ¬(env.fallbackPath ≠ "" ∧ env.fallbackIsFile = true) := by
      rcases hfb with h | h <;> simp [h]
    have hsel : prepareSelect env = (none, "missing") := by
      simp [prepareSelect, hc, hcond, chosenFile_nil]
    have hres : prepareOutputs env
        = emit_output env.channel "icf_template_status" (some "missing") [] := by
      rw [prepareOutputs, hsel]
      rfl
    refine ⟨hres, ?_, ?_, ?_⟩ <;>
      · intro v hv
        rw [hres] at hv
        by_cases hch : env.channel <;> simp [emit_output, hch] at hv
  · rw [prepareOutputs]
    exact prepareEmit_status env (prepareSelect env) (prepareSelect_snd_ne env) hch

/-- C10 witness: with a configured channel, no candidates and no fallback,
only the status output is written, with the non-empty value `missing`. -/
theorem c10_outputs_witness :
    prepareOutputs envNoTemplate = [("icf_template_status", "missing")]
    ∧ (∀ v, ("icf_template_path", v) ∉ prepareOutputs envNoTemplate)
    ∧ (∃ v, v ≠ "" ∧ ("icf_template_status", v) ∈ prepareOutputs envNoTemplate) := by
  have h := (c10_outputs envNoTemplate).2.2.2.2.1 rfl (Or.inl rfl)
  exact ⟨h.1.trans (by decide), h.2.1, (c10_outputs envNoTemplate).2.2.2.2.2 rfl⟩

end ICF
